import Mathlib

/-!
Shallow embedding of the `compiledfiles` library (src/src/lib.rs): a decoder
that extracts the list of source files recorded in a binary's debug metadata,
via either a PDB container or an ELF/Mach-O container with DWARF sections.

The external collaborators (the `pdb` crate's container reader, the `object`
crate's container reader, the `gimli` DWARF decoder) are modelled abstractly:
their enumeration and string-resolution capabilities appear as fields of the
input structures below, exactly as the core code consumes them. The core's
own logic (dispatch, table traversal, conditional field population, path
resolution, normalization) is translated line by line from the source.

Rust `Vec<u8>` buffers are `List Nat`; paths (`PathBuf`) are `String` with
Unix path semantics for `is_relative` / `push` / `join`; machine integers
(`u64` sizes and timestamps) are `Nat` (no overflow is possible in the
source: values are only moved, never computed with).
-/

namespace CompiledFiles

/-- Model of `FileCheckSum` from lib.rs: tagged digest variants. The source stores
fixed-width byte arrays (`[u8; 16]` etc.); we carry the bytes as a list. -/
inductive FileCheckSum where
  | Md5 (data : List Nat)
  | Sha1 (data : List Nat)
  | Sha256 (data : List Nat)
deriving DecidableEq, Repr

/-- Model of `FileInfo` from lib.rs: the per-source-file record. Structural equality
(`PartialEq`/`Eq` derive) is Lean's `DecidableEq`; the `Ord` impl compares
`path` alone and is modelled by `fileLe` below. -/
structure FileInfo where
  path : String
  size : Option Nat
  timestamp : Option Nat
  checksum : Option FileCheckSum
deriving DecidableEq, Repr

/-- The `Ord for FileInfo` impl: total order by `path` alone. -/
def fileLe (a b : FileInfo) : Prop := a.path ≤ b.path

instance : DecidableRel fileLe := fun a b =>
  inferInstanceAs (Decidable (a.path ≤ b.path))

instance : IsTotal FileInfo fileLe := ⟨fun a b => le_total a.path b.path⟩

instance : IsTrans FileInfo fileLe := ⟨fun _ _ _ h1 h2 => le_trans h1 h2⟩

/-- The `Error` enum of lib.rs, as discriminants (each source variant wraps
an underlying cause which plays no role in the control flow). -/
inductive Error where
  | MissingDebugSymbols
  | UnrecognizedFileFormat
  | Io
  | Dwarf
  | Object
  | Pdb
deriving DecidableEq, Repr

/-- Outcome of a Rust computation that may return `Ok`, return `Err`, or
panic (`unimplemented!()` at lib.rs:259, `.unwrap()` at lib.rs:299). -/
inductive POutcome (α : Type) where
  | ok (val : α)
  | err (e : Error)
  | panic
deriving DecidableEq, Repr

/-- Lift a `Result` into an outcome (a computation that cannot panic). -/
def toPOutcome : Except Error α → POutcome α
  | .ok a => .ok a
  | .error e => .err e

/-! ### Path model (Unix semantics of `std::path`) -/

/-- Predicate `charPre pre l`: `pre` is a leading run of `l` (character-list model of
Rust `str::starts_with`). -/
def charPre : List Char → List Char → Bool
  | [], _ => true
  | _ :: _, [] => false
  | c :: cs, d :: ds => c == d && charPre cs ds

/-- Rust `str::starts_with`. -/
def strStartsWith (s pre : String) : Bool := charPre pre.data s.data

/-- Rust `str::ends_with`. -/
def strEndsWith (s suf : String) : Bool := charPre suf.data.reverse s.data.reverse

/-- Model of `Path::is_relative` on Unix: relative iff it does not start with `/`. -/
def pathIsRelative (s : String) : Bool := ! strStartsWith s "/"

/-- Model of `PathBuf::push` (also `Path::join`) on Unix: an absolute argument
replaces the whole path; otherwise the argument is appended, inserting a
separator when one is needed. -/
def pathPush (base p : String) : String :=
  if strStartsWith p "/" then p
  else if base = "" then p
  else if strEndsWith base "/" then base ++ p
  else base ++ "/" ++ p

/-! ### Normalizer/Deduplicator

lib.rs:240-241 and lib.rs:350-351: `files.sort(); files.dedup();`.
`Vec::sort` is a stable sort under the `Ord` impl (path only), modelled by
insertion sort (stable, hence the same output). `Vec::dedup` removes only
*consecutive* `PartialEq`-equal elements. -/

/-- Model of `Vec::dedup`: collapse runs of consecutive equal elements to one. -/
def dedupConsec : List FileInfo → List FileInfo
  | [] => []
  | [a] => [a]
  | a :: b :: rest =>
    if a = b then dedupConsec (b :: rest) else a :: dedupConsec (b :: rest)

/-- The pair `files.sort(); files.dedup();` as one function. -/
def normalize (files : List FileInfo) : List FileInfo :=
  dedupConsec (files.insertionSort fileLe)

/-! ### PDB walker (lib.rs:130-149, 213-244) -/

/-- Model of `pdb::FileChecksum`: the checksum tag stored on a PDB file entry. -/
inductive PdbChecksum where
  | Md5 (data : List Nat)
  | Sha1 (data : List Nat)
  | Sha256 (data : List Nat)
  | None
deriving DecidableEq, Repr

/-- Model of `convert_pdb_checksum_to_checksum` (lib.rs:130-149). The source copies
each tag's byte slice into a fixed-width array of the same length;
we carry the bytes through unchanged. -/
def convert_pdb_checksum_to_checksum : PdbChecksum → Option FileCheckSum
  | .Md5 data => some (FileCheckSum.Md5 data)
  | .Sha1 data => some (FileCheckSum.Sha1 data)
  | .Sha256 data => some (FileCheckSum.Sha256 data)
  | .None => none

/-- One entry of a module's line-program file table: a string-table
reference for the name (`file.name`) plus a checksum tag (`file.checksum`). -/
structure PdbFileEntry where
  nameRef : Nat
  checksum : PdbChecksum

/-- One PDB module: `module_info` is `Some` when the module has associated
per-module debug info, carrying its line program's file table in order. -/
structure PdbModule where
  modInfo : Option (List PdbFileEntry)

/-- An opened PDB container: the global string table (resolution of a name
reference may fail, a PDB-layer error) and the modules in stored order. -/
structure PdbContainer where
  stringTable : Nat → Option String
  modules : List PdbModule

/-- Body of the per-entry loop at lib.rs:225-235: resolve the name through
the string table (`?` propagates a PDB error), build the record. -/
def pdbEntryToInfo (st : Nat → Option String) (e : PdbFileEntry) :
    Except Error FileInfo :=
  match st e.nameRef with
  | some s =>
    .ok { path := s, size := none, timestamp := none,
          checksum := convert_pdb_checksum_to_checksum e.checksum }
  | none => .error .Pdb

/-- The inner `while let` over one module's file table. -/
def pdbEntriesToInfos (st : Nat → Option String) :
    List PdbFileEntry → Except Error (List FileInfo)
  | [] => .ok []
  | e :: es =>
    match pdbEntryToInfo st e with
    | .ok info =>
      match pdbEntriesToInfos st es with
      | .ok rest => .ok (info :: rest)
      | .error er => .error er
    | .error er => .error er

/-- The outer `while let` over modules (lib.rs:221-238): a module without
per-module info contributes nothing. -/
def pdbCollectFiles (st : Nat → Option String) :
    List PdbModule → Except Error (List FileInfo)
  | [] => .ok []
  | m :: ms =>
    match (match m.modInfo with
           | some entries => pdbEntriesToInfos st entries
           | none => .ok []) with
    | .ok here =>
      match pdbCollectFiles st ms with
      | .ok rest => .ok (here ++ rest)
      | .error er => .error er
    | .error er => .error er

/-- Model of `parse_pdb` (lib.rs:213-244): walk all modules, then sort and dedup. -/
def parse_pdb (p : PdbContainer) : Except Error (List FileInfo) :=
  match pdbCollectFiles p.stringTable p.modules with
  | .ok files => .ok (normalize files)
  | .error er => .error er

/-! ### DWARF walker (lib.rs:267-353) -/

/-- One DWARF file-name-table entry as the gimli decoder exposes it:
`file.directory(header)` is an `Option` attribute reference (the source
unwraps it, lib.rs:299), `file.path_name()` an attribute reference,
`file.timestamp()`, `file.size()` raw `u64`s, `file.md5()` 16 raw bytes. -/
structure DwarfFileEntry where
  dirAttr : Option Nat
  nameAttr : Nat
  timestamp : Nat
  size : Nat
  md5 : List Nat

/-- A unit's line-program header: the per-file field-presence flags
(`file_has_timestamp`, `file_has_size`, `file_has_md5`) and the file-name
table in order (`file_names()`). -/
structure LineProgramHeader where
  hasTimestamp : Bool
  hasSize : Bool
  hasMd5 : Bool
  fileNames : List DwarfFileEntry

/-- One compilation unit: its optional `comp_dir` string and its optional
line program. -/
structure DwarfUnit where
  compDir : Option String
  lineProgram : Option LineProgramHeader

/-- The gimli decoder's view of the loaded sections: `attr_string`
resolution (failure is a gimli error, becoming `Error.Dwarf` through `?`)
and the compilation units in container order. -/
structure DwarfInput where
  attrStrings : Nat → Option String
  units : List DwarfUnit

/-- A named section of an object container: `uncompressed_data()` may fail
with an object-layer error. -/
structure Section where
  uncompressedData : Except Unit (List Nat)

/-- Model of `object::BinaryFormat` (`Xcoff` stands for the `_` catch-all arm of
lib.rs:260, any other/unknown kind). -/
inductive BinaryFormat where
  | Coff
  | Elf
  | MachO
  | Pe
  | Wasm
  | Xcoff
deriving DecidableEq, Repr

/-- An opened object container: endianness, debug-symbols flag, concrete
kind, named-section access (`section_by_name`), and the DWARF decoder's
view of its debug sections. -/
structure ObjectFile where
  littleEndian : Bool
  hasDebugSymbols : Bool
  format : BinaryFormat
  sections : String → Option Section
  dwarf : DwarfInput

/-- Model of `gimli::RunTimeEndian`. -/
inductive Endianness where
  | Little
  | Big
deriving DecidableEq, Repr

/-- The `load_section` closure (lib.rs:269-275): a present section whose
data fails to load is replaced by the default empty buffer
(`unwrap_or_default`), an absent section is the default empty buffer, and
the closure itself always returns `Ok`. -/
def load_section (file : ObjectFile) (name : String) : Except Error (List Nat) :=
  match file.sections name with
  | some s => .ok (match s.uncompressedData with | .ok d => d | .error _ => [])
  | none => .ok []

/-- The standard named debug sections `DwarfSections::load` requests. -/
def dwarfSectionNames : List String :=
  [".debug_abbrev", ".debug_addr", ".debug_aranges", ".debug_info",
   ".debug_line", ".debug_line_str", ".debug_str", ".debug_str_offsets",
   ".debug_types"]

/-- Model of `DwarfSections::load(&load_section)?` (lib.rs:278): load every standard
section, propagating any error a load returns. -/
def loadDwarfSections (file : ObjectFile) :
    List String → Except Error (List (List Nat))
  | [] => .ok []
  | n :: ns =>
    match load_section file n with
    | .ok d =>
      match loadDwarfSections file ns with
      | .ok ds => .ok (d :: ds)
      | .error er => .error er
    | .error er => .error er

/-- Body of the per-entry loop (lib.rs:298-345): unwrap the directory
attribute (panic when absent), resolve it to a string (`?` on failure),
prepend `comp_dir` when the directory is relative and the unit has one,
resolve and push the base name, populate `timestamp`/`size` under the
header flags with the zero sentinel mapped to absent, copy the MD5 digest
when declared, and drop entries whose base name starts with `<`.
Returns `ok none` for a dropped entry, `ok (some info)` for an emitted one. -/
def processEntry (d : DwarfInput) (u : DwarfUnit) (h : LineProgramHeader)
    (e : DwarfFileEntry) : POutcome (Option FileInfo) :=
  match e.dirAttr with
  | none => .panic
  | some dirRef =>
    match d.attrStrings dirRef with
    | none => .err .Dwarf
    | some dirStr =>
      let path0 :=
        if pathIsRelative dirStr then
          match u.compDir with
          | some cd => pathPush cd dirStr
          | none => dirStr
        else dirStr
      match d.attrStrings e.nameAttr with
      | none => .err .Dwarf
      | some filename =>
        let info : FileInfo :=
          { path := pathPush path0 filename
            size := if h.hasSize then (if e.size = 0 then none else some e.size) else none
            timestamp :=
              if h.hasTimestamp then (if e.timestamp = 0 then none else some e.timestamp)
              else none
            checksum := if h.hasMd5 then some (FileCheckSum.Md5 e.md5) else none }
        if strStartsWith filename "<" then .ok none else .ok (some info)

/-- The `for file in program.header().file_names()` loop over one unit's
file table, in table order. -/
def processEntries (d : DwarfInput) (u : DwarfUnit) (h : LineProgramHeader) :
    List DwarfFileEntry → POutcome (List FileInfo)
  | [] => .ok []
  | e :: es =>
    match processEntry d u h e with
    | .ok r =>
      match processEntries d u h es with
      | .ok rest => .ok ((match r with | some info => [info] | none => []) ++ rest)
      | .err er => .err er
      | .panic => .panic
    | .err er => .err er
    | .panic => .panic

/-- The `while let Some(header) = iter.next()?` loop over compilation units
(lib.rs:294-348): a unit without a line program contributes nothing. -/
def collectUnits (d : DwarfInput) : List DwarfUnit → POutcome (List FileInfo)
  | [] => .ok []
  | u :: us =>
    match (match u.lineProgram with
           | some h => processEntries d u h h.fileNames
           | none => .ok []) with
    | .ok here =>
      match collectUnits d us with
      | .ok rest => .ok (here ++ rest)
      | .err er => .err er
      | .panic => .panic
    | .err er => .err er
    | .panic => .panic

/-- Model of `parse_elf_file` (lib.rs:267-353): load the sections, let the gimli
decoder walk the units, then sort and dedup. The `endianness` argument
configures multi-byte decoding inside the external decoder and does not
influence the core's control flow. -/
def parse_elf_file (file : ObjectFile) (_endianness : Endianness) :
    POutcome (List FileInfo) :=
  match loadDwarfSections file dwarfSectionNames with
  | .error er => .err er
  | .ok _ =>
    match collectUnits file.dwarf file.dwarf.units with
    | .ok files => .ok (normalize files)
    | .err er => .err er
    | .panic => .panic

/-- Model of `parse_object` (lib.rs:246-265): compute endianness, then dispatch on
the debug-symbols flag and the concrete kind. `unimplemented!()` for WASM
is a panic. -/
def parse_object (file : ObjectFile) : POutcome (List FileInfo) :=
  let endianness := if file.littleEndian then Endianness.Little else Endianness.Big
  if file.hasDebugSymbols then
    match file.format with
    | .Elf => parse_elf_file file endianness
    | .Coff => .err .MissingDebugSymbols
    | .MachO => parse_elf_file file endianness
    | .Pe => .err .MissingDebugSymbols
    | .Wasm => .panic
    | .Xcoff => .err .UnrecognizedFileFormat
  else .err .MissingDebugSymbols

/-! ### Format dispatcher (lib.rs:166-188) -/

/-- Result of `pdb::PDB::open` on the stream: opened, rejected with the
distinguishable `UnrecognizedFileFormat` signal, or failed with any other
PDB error. -/
inductive PdbOpenResult where
  | opened (p : PdbContainer)
  | errUnrecognized
  | errOther

/-- The input byte source as `parse` consumes it: the PDB probe's result,
whether `rewind` and `read_to_end` succeed (their failures are I/O errors),
and the result of `object::File::parse` on the full contents. -/
structure Stream where
  pdbOpen : PdbOpenResult
  rewindOk : Bool
  readOk : Bool
  objectParse : Except Unit ObjectFile

/-- Steps 3 onward of the dispatcher (lib.rs:178-187): rewind the stream,
read it fully, parse as an object container, and walk it. -/
def objectFallback (s : Stream) : POutcome (List FileInfo) :=
  if s.rewindOk then
    if s.readOk then
      match s.objectParse with
      | .ok obj => parse_object obj
      | .error _ => .err .Object
    else .err .Io
  else .err .Io

/-- Model of `parse` (lib.rs:166-188): probe as PDB; on success run the PDB walker,
on the specific `UnrecognizedFileFormat` signal fall back to the object
path, on any other PDB error propagate it. -/
def parse (s : Stream) : POutcome (List FileInfo) :=
  match s.pdbOpen with
  | .opened p => toPOutcome (parse_pdb p)
  | .errOther => .err .Pdb
  | .errUnrecognized => objectFallback s

/-- The object-container path of `parse` was taken and produced `obj`:
the PDB probe rejected with the unrecognized-format signal, the rewind and
the full read succeeded, and the bytes parsed as object container `obj`. -/
def takesObjectPath (s : Stream) (obj : ObjectFile) : Prop :=
  s.pdbOpen = PdbOpenResult.errUnrecognized ∧ s.rewindOk = true ∧
    s.readOk = true ∧ s.objectParse = .ok obj

/-! ### Properties of the normalizer -/

/-- Predicate `noAdjDup l`: no two adjacent elements of `l` are equal (what a run of
`Vec::dedup` guarantees). -/
def noAdjDup : List FileInfo → Prop
  | [] => True
  | [_] => True
  | a :: b :: rest => a ≠ b ∧ noAdjDup (b :: rest)

theorem dedupConsec_pair_eq (a b : FileInfo) (rest : List FileInfo) :
    dedupConsec (a :: b :: rest) =
      if a = b then dedupConsec (b :: rest) else a :: dedupConsec (b :: rest) :=
  rfl

theorem dedupConsec_sublist : ∀ l : List FileInfo,
    List.Sublist (dedupConsec l) l
  | [] => List.Sublist.refl _
  | [_] => List.Sublist.refl _
  | a :: b :: rest => by
    rw [dedupConsec_pair_eq]
    by_cases hab : a = b
    · rw [if_pos hab]
      exact (dedupConsec_sublist (b :: rest)).cons a
    · rw [if_neg hab]
      exact (dedupConsec_sublist (b :: rest)).cons₂ a

theorem mem_dedupConsec (x : FileInfo) : ∀ l : List FileInfo,
    x ∈ dedupConsec l ↔ x ∈ l
  | [] => Iff.rfl
  | [_] => Iff.rfl
  | a :: b :: rest => by
    rw [dedupConsec_pair_eq]
    by_cases hab : a = b
    · rw [if_pos hab, mem_dedupConsec x (b :: rest)]
      subst hab
      simp only [List.mem_cons]
      tauto
    · rw [if_neg hab, List.mem_cons, mem_dedupConsec x (b :: rest)]
      simp only [List.mem_cons]

theorem dedupConsec_cons (x : FileInfo) : ∀ xs : List FileInfo,
    ∃ t, dedupConsec (x :: xs) = x :: t
  | [] => ⟨[], rfl⟩
  | y :: ys => by
    rw [dedupConsec_pair_eq]
    by_cases hxy : x = y
    · obtain ⟨t, ht⟩ := dedupConsec_cons x ys
      rw [if_pos hxy]
      subst hxy
      exact dedupConsec_cons x ys
    · rw [if_neg hxy]
      exact ⟨dedupConsec (y :: ys), rfl⟩

theorem noAdjDup_dedupConsec : ∀ l : List FileInfo, noAdjDup (dedupConsec l)
  | [] => trivial
  | [_] => trivial
  | a :: b :: rest => by
    rw [dedupConsec_pair_eq]
    by_cases hab : a = b
    · rw [if_pos hab]
      exact noAdjDup_dedupConsec (b :: rest)
    · rw [if_neg hab]
      obtain ⟨t, ht⟩ := dedupConsec_cons b rest
      rw [ht]
      refine ⟨hab, ?_⟩
      rw [← ht]
      exact noAdjDup_dedupConsec (b :: rest)

theorem sorted_normalize (raw : List FileInfo) :
    (normalize raw).Sorted fileLe :=
  List.Pairwise.sublist (dedupConsec_sublist _)
    (List.sorted_insertionSort fileLe raw)

theorem noAdjDup_normalize (raw : List FileInfo) : noAdjDup (normalize raw) :=
  noAdjDup_dedupConsec _

theorem mem_normalize (x : FileInfo) (raw : List FileInfo) :
    x ∈ normalize raw ↔ x ∈ raw := by
  rw [normalize, mem_dedupConsec, List.mem_insertionSort]

/-! ### Concrete inputs used by witnesses and counterexamples -/

/-- A string table resolving nothing. -/
def stEmpty : Nat → Option String := fun _ => none

/-- A string table resolving every reference to `a.c`. -/
def stConst : Nat → Option String := fun _ => some "a.c"

/-- A record with only a path. -/
def infoA : FileInfo :=
  { path := "a.c", size := none, timestamp := none, checksum := none }

/-- Same path as `infoA` but with a checksum: equal under the path order,
distinct under structural equality. -/
def infoB : FileInfo :=
  { path := "a.c", size := none, timestamp := none,
    checksum := some (FileCheckSum.Md5 (List.replicate 16 0)) }

/-- A PDB container whose single module lists the same file three times:
twice without a checksum, once (in between) with one. -/
def pdbDup : PdbContainer :=
  { stringTable := stConst,
    modules := [⟨some [⟨0, PdbChecksum.None⟩,
                       ⟨0, PdbChecksum.Md5 (List.replicate 16 0)⟩,
                       ⟨0, PdbChecksum.None⟩]⟩] }

theorem parse_pdb_pdbDup_eval : parse_pdb pdbDup = .ok [infoA, infoB, infoA] := by
  simp [parse_pdb, pdbDup, pdbCollectFiles, pdbEntriesToInfos, pdbEntryToInfo,
    stConst, convert_pdb_checksum_to_checksum, normalize, List.insertionSort,
    List.orderedInsert, fileLe, dedupConsec, infoA, infoB]


/-! ### Error classification of the walkers -/

theorem pdbEntryToInfo_error (st : Nat → Option String) (e : PdbFileEntry)
    (er : Error) (h : pdbEntryToInfo st e = .error er) : er = .Pdb := by
  unfold pdbEntryToInfo at h
  cases hst : st e.nameRef <;> simp [hst] at h <;> simp_all

theorem pdbEntriesToInfos_error (st : Nat → Option String) :
    ∀ (es : List PdbFileEntry) (er : Error),
      pdbEntriesToInfos st es = .error er → er = .Pdb
  | [], er => by simp [pdbEntriesToInfos]
  | e :: es, er => by
    intro h
    unfold pdbEntriesToInfos at h
    cases he : pdbEntryToInfo st e with
    | ok info =>
      simp only [he] at h
      cases hes : pdbEntriesToInfos st es with
      | ok rest => simp [hes] at h
      | error er2 =>
        simp [hes] at h
        exact h ▸ pdbEntriesToInfos_error st es er2 hes
    | error er2 =>
      simp [he] at h
      exact h ▸ pdbEntryToInfo_error st e er2 he

theorem pdbCollectFiles_error (st : Nat → Option String) :
    ∀ (ms : List PdbModule) (er : Error),
      pdbCollectFiles st ms = .error er → er = .Pdb
  | [], er => by simp [pdbCollectFiles]
  | m :: ms, er => by
    intro h
    unfold pdbCollectFiles at h
    cases hm : (match m.modInfo with
                | some entries => pdbEntriesToInfos st entries
                | none => .ok []) with
    | ok here =>
      simp only [hm] at h
      cases hms : pdbCollectFiles st ms with
      | ok rest => simp [hms] at h
      | error er2 =>
        simp [hms] at h
        exact h ▸ pdbCollectFiles_error st ms er2 hms
    | error er2 =>
      simp [hm] at h
      cases hmi : m.modInfo with
      | some entries =>
        rw [hmi] at hm
        exact h ▸ pdbEntriesToInfos_error st entries er2 hm
      | none => rw [hmi] at hm; simp_all

theorem parse_pdb_error (p : PdbContainer) (er : Error)
    (h : parse_pdb p = .error er) : er = .Pdb := by
  unfold parse_pdb at h
  cases hc : pdbCollectFiles p.stringTable p.modules with
  | ok files => simp [hc] at h
  | error er2 =>
    simp [hc] at h
    exact h ▸ pdbCollectFiles_error p.stringTable p.modules er2 hc

theorem load_section_ok (file : ObjectFile) (name : String) :
    ∃ buf, load_section file name = .ok buf := by
  unfold load_section
  cases file.sections name <;> exact ⟨_, rfl⟩

theorem loadDwarfSections_ok (file : ObjectFile) :
    ∀ ns : List String, ∃ bufs, loadDwarfSections file ns = .ok bufs
  | [] => ⟨[], rfl⟩
  | n :: ns => by
    obtain ⟨buf, hbuf⟩ := load_section_ok file n
    obtain ⟨bufs, hbufs⟩ := loadDwarfSections_ok file ns
    exact ⟨buf :: bufs, by unfold loadDwarfSections; rw [hbuf, hbufs]⟩

theorem processEntry_error (d : DwarfInput) (u : DwarfUnit)
    (h : LineProgramHeader) (e : DwarfFileEntry) (er : Error)
    (hpe : processEntry d u h e = .err er) : er = .Dwarf := by
  unfold processEntry at hpe
  cases hda : e.dirAttr with
  | none => simp [hda] at hpe
  | some r =>
    simp only [hda] at hpe
    cases hds : d.attrStrings r with
    | none => simp [hds] at hpe; exact hpe.symm
    | some dirStr =>
      simp only [hds] at hpe
      cases hfn : d.attrStrings e.nameAttr with
      | none => simp [hfn] at hpe; exact hpe.symm
      | some fn =>
        simp only [hfn] at hpe
        split at hpe <;> simp_all

theorem processEntry_not_panic (d : DwarfInput) (u : DwarfUnit)
    (h : LineProgramHeader) (e : DwarfFileEntry) (r : Nat)
    (hda : e.dirAttr = some r) : processEntry d u h e ≠ .panic := by
  unfold processEntry
  simp only [hda]
  cases d.attrStrings r with
  | none => simp
  | some dirStr =>
    cases d.attrStrings e.nameAttr with
    | none => simp
    | some fn =>
      split <;> (try simp) <;>
        (by_cases hlt : strStartsWith fn "<" = true <;> simp [hlt])

theorem processEntries_error (d : DwarfInput) (u : DwarfUnit)
    (h : LineProgramHeader) :
    ∀ (es : List DwarfFileEntry) (er : Error),
      processEntries d u h es = .err er → er = .Dwarf
  | [], er => by simp [processEntries]
  | e :: es, er => by
    intro hp
    unfold processEntries at hp
    cases hpe : processEntry d u h e with
    | ok r =>
      simp only [hpe] at hp
      cases hes : processEntries d u h es with
      | ok rest => simp [hes] at hp
      | err er2 =>
        simp [hes] at hp
        exact hp ▸ processEntries_error d u h es er2 hes
      | panic => simp [hes] at hp
    | err er2 =>
      simp [hpe] at hp
      exact hp ▸ processEntry_error d u h e er2 hpe
    | panic => simp [hpe] at hp

theorem processEntries_not_panic (d : DwarfInput) (u : DwarfUnit)
    (h : LineProgramHeader) :
    ∀ es : List DwarfFileEntry,
      (∀ e ∈ es, (e.dirAttr).isSome) → processEntries d u h es ≠ .panic
  | [], _ => by simp [processEntries]
  | e :: es, hall => by
    unfold processEntries
    cases hpe : processEntry d u h e with
    | ok r =>
      cases hes : processEntries d u h es with
      | ok rest => simp
      | err er2 => simp
      | panic =>
        exact absurd hes
          (processEntries_not_panic d u h es fun x hx => hall x (List.mem_cons_of_mem e hx))
    | err er2 => simp
    | panic =>
      obtain ⟨r, hr⟩ := Option.isSome_iff_exists.mp (hall e (List.mem_cons_self e es))
      exact absurd hpe (processEntry_not_panic d u h e r hr)

theorem processEntries_ok_all (d : DwarfInput) (u : DwarfUnit)
    (h : LineProgramHeader) :
    ∀ (es : List DwarfFileEntry) (l : List FileInfo),
      processEntries d u h es = .ok l →
      ∀ e ∈ es, ∃ r, processEntry d u h e = .ok r
  | [], l => by simp
  | e :: es, l => by
    intro hp e2 he2
    unfold processEntries at hp
    cases hpe : processEntry d u h e with
    | ok r =>
      simp only [hpe] at hp
      cases hes : processEntries d u h es with
      | ok rest =>
        rcases List.mem_cons.mp he2 with he2 | he2
        · exact he2 ▸ ⟨r, hpe⟩
        · exact processEntries_ok_all d u h es rest hes e2 he2
      | err er2 => simp [hes] at hp
      | panic => simp [hes] at hp
    | err er2 => simp [hpe] at hp
    | panic => simp [hpe] at hp

theorem collectUnits_error (d : DwarfInput) :
    ∀ (us : List DwarfUnit) (er : Error),
      collectUnits d us = .err er → er = .Dwarf
  | [], er => by simp [collectUnits]
  | u :: us, er => by
    intro hc
    unfold collectUnits at hc
    cases hu : (match u.lineProgram with
                | some h => processEntries d u h h.fileNames
                | none => .ok []) with
    | ok here =>
      simp only [hu] at hc
      cases hus : collectUnits d us with
      | ok rest => simp [hus] at hc
      | err er2 =>
        simp [hus] at hc
        exact hc ▸ collectUnits_error d us er2 hus
      | panic => simp [hus] at hc
    | err er2 =>
      simp [hu] at hc
      cases hlp : u.lineProgram with
      | some hh =>
        rw [hlp] at hu
        exact hc ▸ processEntries_error d u hh hh.fileNames er2 hu
      | none => rw [hlp] at hu; simp_all
    | panic => simp [hu] at hc

theorem collectUnits_not_panic (d : DwarfInput) :
    ∀ us : List DwarfUnit,
      (∀ u ∈ us, ∀ h, u.lineProgram = some h →
        ∀ e ∈ h.fileNames, (e.dirAttr).isSome) →
      collectUnits d us ≠ .panic
  | [], _ => by simp [collectUnits]
  | u :: us, hall => by
    unfold collectUnits
    cases hu : (match u.lineProgram with
                | some h => processEntries d u h h.fileNames
                | none => .ok []) with
    | ok here =>
      cases hus : collectUnits d us with
      | ok rest => simp
      | err er2 => simp
      | panic =>
        exact absurd hus (collectUnits_not_panic d us
          fun x hx => hall x (List.mem_cons_of_mem u hx))
    | err er2 => simp
    | panic =>
      cases hlp : u.lineProgram with
      | some hh =>
        rw [hlp] at hu
        exact absurd hu (processEntries_not_panic d u hh hh.fileNames
          (hall u (List.mem_cons_self u us) hh hlp))
      | none => rw [hlp] at hu; simp_all

theorem collectUnits_ok_all (d : DwarfInput) :
    ∀ (us : List DwarfUnit) (l : List FileInfo),
      collectUnits d us = .ok l →
      ∀ u ∈ us, ∀ h, u.lineProgram = some h →
        ∀ e ∈ h.fileNames, ∃ r, processEntry d u h e = .ok r
  | [], l => by simp
  | u :: us, l => by
    intro hc u2 hu2 h2 hlp2 e2 he2
    unfold collectUnits at hc
    cases hu : (match u.lineProgram with
                | some h => processEntries d u h h.fileNames
                | none => .ok []) with
    | ok here =>
      simp only [hu] at hc
      cases hus : collectUnits d us with
      | ok rest =>
        rcases List.mem_cons.mp hu2 with hu2 | hu2
        · subst hu2
          rw [hlp2] at hu
          exact processEntries_ok_all d u2 h2 h2.fileNames here hu e2 he2
        · exact collectUnits_ok_all d us rest hus u2 hu2 h2 hlp2 e2 he2
      | err er2 => simp [hus] at hc
      | panic => simp [hus] at hc
    | err er2 => simp [hu] at hc
    | panic => simp [hu] at hc

theorem parse_elf_file_error (file : ObjectFile) (en : Endianness) (er : Error)
    (h : parse_elf_file file en = .err er) : er = .Dwarf := by
  unfold parse_elf_file at h
  obtain ⟨bufs, hbufs⟩ := loadDwarfSections_ok file dwarfSectionNames
  simp only [hbufs] at h
  cases hc : collectUnits file.dwarf file.dwarf.units with
  | ok files => simp [hc] at h
  | err er2 =>
    simp [hc] at h
    exact h ▸ collectUnits_error file.dwarf file.dwarf.units er2 hc
  | panic => simp [hc] at h

theorem parse_elf_file_ok (file : ObjectFile) (en : Endianness)
    (l : List FileInfo) (h : parse_elf_file file en = .ok l) :
    ∃ files, collectUnits file.dwarf file.dwarf.units = .ok files ∧
      l = normalize files := by
  unfold parse_elf_file at h
  obtain ⟨bufs, hbufs⟩ := loadDwarfSections_ok file dwarfSectionNames
  simp only [hbufs] at h
  cases hc : collectUnits file.dwarf file.dwarf.units with
  | ok files =>
    simp [hc] at h
    exact ⟨files, rfl, h.symm⟩
  | err er2 => simp [hc] at h
  | panic => simp [hc] at h

theorem parse_pdb_ok (p : PdbContainer) (l : List FileInfo)
    (h : parse_pdb p = .ok l) :
    ∃ files, pdbCollectFiles p.stringTable p.modules = .ok files ∧
      l = normalize files := by
  unfold parse_pdb at h
  cases hc : pdbCollectFiles p.stringTable p.modules with
  | ok files =>
    simp [hc] at h
    exact ⟨files, rfl, h.symm⟩
  | error er2 => simp [hc] at h

/-! ### Dispatcher case equations and `parse_object` analysis -/

theorem parse_opened_eq (s : Stream) (p : PdbContainer)
    (hp : s.pdbOpen = .opened p) : parse s = toPOutcome (parse_pdb p) := by
  unfold parse; rw [hp]

theorem parse_unrec_eq (s : Stream)
    (hp : s.pdbOpen = .errUnrecognized) : parse s = objectFallback s := by
  unfold parse; rw [hp]

theorem parse_other_eq (s : Stream)
    (hp : s.pdbOpen = .errOther) : parse s = .err .Pdb := by
  unfold parse; rw [hp]

theorem parse_object_missing_iff (obj : ObjectFile) :
    parse_object obj = .err .MissingDebugSymbols ↔
      obj.hasDebugSymbols = false ∨ obj.format = .Coff ∨ obj.format = .Pe := by
  cases hd : obj.hasDebugSymbols with
  | false =>
    refine iff_of_true ?_ (Or.inl rfl)
    simp [parse_object, hd]
  | true =>
    cases hf : obj.format with
    | Coff =>
      refine iff_of_true ?_ (Or.inr (Or.inl rfl))
      simp [parse_object, hd, hf]
    | Pe =>
      refine iff_of_true ?_ (Or.inr (Or.inr rfl))
      simp [parse_object, hd, hf]
    | Elf =>
      refine iff_of_false (fun hcontra => ?_) (by simp [hd, hf])
      rw [show parse_object obj =
            parse_elf_file obj (if obj.littleEndian then .Little else .Big) from by
          simp [parse_object, hd, hf]] at hcontra
      have := parse_elf_file_error obj _ _ hcontra
      simp at this
    | MachO =>
      refine iff_of_false (fun hcontra => ?_) (by simp [hd, hf])
      rw [show parse_object obj =
            parse_elf_file obj (if obj.littleEndian then .Little else .Big) from by
          simp [parse_object, hd, hf]] at hcontra
      have := parse_elf_file_error obj _ _ hcontra
      simp at this
    | Wasm =>
      refine iff_of_false (fun hcontra => ?_) (by simp [hd, hf])
      rw [show parse_object obj = .panic from by simp [parse_object, hd, hf]]
        at hcontra
      cases hcontra
    | Xcoff =>
      refine iff_of_false (fun hcontra => ?_) (by simp [hd, hf])
      rw [show parse_object obj = .err .UnrecognizedFileFormat from by
          simp [parse_object, hd, hf]] at hcontra
      simp at hcontra

/-! ### Concrete inputs used by witnesses and counterexamples -/

/-- A PDB container with no modules. -/
def pdbEmpty : PdbContainer := { stringTable := stEmpty, modules := [] }

/-- A DWARF view with no units. -/
def dwarfEmpty : DwarfInput := { attrStrings := stEmpty, units := [] }

/-- An ELF container with debug symbols and no sections or units. -/
def objElfEmpty : ObjectFile :=
  { littleEndian := true, hasDebugSymbols := true, format := .Elf,
    sections := fun _ => none, dwarf := dwarfEmpty }

/-- A stripped ELF container: no debug symbols. -/
def objNoDbg : ObjectFile :=
  { littleEndian := true, hasDebugSymbols := false, format := .Elf,
    sections := fun _ => none, dwarf := dwarfEmpty }

/-- A WASM container reporting debug symbols. -/
def objWasm : ObjectFile :=
  { littleEndian := true, hasDebugSymbols := true, format := .Wasm,
    sections := fun _ => none, dwarf := dwarfEmpty }

/-- A container of an unknown kind reporting debug symbols. -/
def objXcoff : ObjectFile :=
  { littleEndian := true, hasDebugSymbols := true, format := .Xcoff,
    sections := fun _ => none, dwarf := dwarfEmpty }

/-- A stream whose PDB probe opens the empty container. -/
def streamOpened : Stream :=
  { pdbOpen := .opened pdbEmpty, rewindOk := true, readOk := true,
    objectParse := .error () }

/-- A stream whose PDB probe fails with an error other than
unrecognized-format. -/
def streamOther : Stream :=
  { pdbOpen := .errOther, rewindOk := true, readOk := true,
    objectParse := .error () }

/-- A stream rejected by the PDB probe that parses as the empty ELF. -/
def streamUnrec : Stream :=
  { pdbOpen := .errUnrecognized, rewindOk := true, readOk := true,
    objectParse := .ok objElfEmpty }

/-- A stream rejected by the PDB probe that parses as a stripped ELF. -/
def streamNoDbg : Stream :=
  { pdbOpen := .errUnrecognized, rewindOk := true, readOk := true,
    objectParse := .ok objNoDbg }

/-! ### Claim theorems -/

/-- C1: for every input stream, `parse` first attempts the PDB open. If it
succeeds the result is always the PDB walker's output; if it fails with the
specific unrecognized-format signal the stream is rewound and parsing falls
back to the object-container path; if it fails for any other reason the
failure propagates as a PDB-layer error with no fallback. -/
theorem parse_probe_dispatch (s : Stream) :
    (∀ p, s.pdbOpen = .opened p → parse s = toPOutcome (parse_pdb p)) ∧
    (s.pdbOpen = .errUnrecognized → parse s = objectFallback s) ∧
    (s.pdbOpen = .errOther → parse s = .err .Pdb) :=
  ⟨fun p hp => parse_opened_eq s p hp,
   fun hp => parse_unrec_eq s hp,
   fun hp => parse_other_eq s hp⟩

/-- Witness for C1 at concrete streams of all three probe outcomes. -/
theorem parse_probe_dispatch_witness :
    parse streamOpened = toPOutcome (parse_pdb pdbEmpty) ∧
    parse streamUnrec = objectFallback streamUnrec ∧
    parse streamOther = .err .Pdb :=
  ⟨(parse_probe_dispatch streamOpened).1 pdbEmpty rfl,
   (parse_probe_dispatch streamUnrec).2.1 rfl,
   (parse_probe_dispatch streamOther).2.2 rfl⟩

/-- C2 counterexample: a successful decode can return a collection holding
two records that are equal on all four fields. `pdbDup`'s module lists the
same file as `infoA`, then `infoB` (same path, different checksum), then
`infoA` again; the stable sort by path keeps this order and `Vec::dedup`
only removes adjacent duplicates, so `infoA` survives twice. -/
theorem full_duplicates_can_survive :
    parse_pdb pdbDup = .ok [infoA, infoB, infoA] ∧
      ¬ List.Pairwise (fun a b : FileInfo => a ≠ b) [infoA, infoB, infoA] :=
  ⟨parse_pdb_pdbDup_eval,
   fun hp => (List.pairwise_cons.mp hp).1 infoA (by simp) rfl⟩

/-- C2 (amended): every collection returned by a successful decode via
either walker is sorted ascending by path, has no two *adjacent* records
equal on all four fields (fully identical records can survive when a
record with the same path but different fields sits between them), and is
the normalization of the accumulated raw records — membership is preserved
exactly, so records sharing a path but differing in some non-path field
are all retained. -/
theorem decode_result_sorted_dedup_adjacent
    (p : PdbContainer) (f : ObjectFile) (en : Endianness) (l : List FileInfo)
    (h : parse_pdb p = .ok l ∨ parse_elf_file f en = .ok l) :
    l.Sorted fileLe ∧ noAdjDup l ∧
      ∃ raw, l = normalize raw ∧ ∀ x, x ∈ l ↔ x ∈ raw := by
  have hnorm : ∃ raw, l = normalize raw := by
    rcases h with h | h
    · obtain ⟨files, _, hfiles⟩ := parse_pdb_ok p l h
      exact ⟨files, hfiles⟩
    · obtain ⟨files, _, hfiles⟩ := parse_elf_file_ok f en l h
      exact ⟨files, hfiles⟩
  obtain ⟨raw, hraw⟩ := hnorm
  subst hraw
  exact ⟨sorted_normalize raw, noAdjDup_normalize raw,
    raw, rfl, fun x => mem_normalize x raw⟩

/-- Witness for C2 (amended) at the concrete container `pdbDup`. -/
theorem decode_result_sorted_dedup_adjacent_witness :
    ([infoA, infoB, infoA] : List FileInfo).Sorted fileLe ∧
      noAdjDup [infoA, infoB, infoA] ∧
      ∃ raw, [infoA, infoB, infoA] = normalize raw ∧
        ∀ x, x ∈ ([infoA, infoB, infoA] : List FileInfo) ↔ x ∈ raw :=
  decode_result_sorted_dedup_adjacent pdbDup objElfEmpty Endianness.Little
    [infoA, infoB, infoA] (Or.inl parse_pdb_pdbDup_eval)

/-- C9: for a container reporting debug symbols, the WASM kind hits
`unimplemented!()` — the decode panics, producing neither a record
collection nor any error of the taxonomy — and any other/unknown kind
(beyond ELF, Mach-O, COFF, PE, WASM) fails with UnrecognizedFileFormat. -/
theorem wasm_panics_unknown_unrecognized (f : ObjectFile)
    (hdbg : f.hasDebugSymbols = true) :
    (f.format = .Wasm → parse_object f = .panic ∧
      (∀ l, parse_object f ≠ .ok l) ∧ (∀ e, parse_object f ≠ .err e)) ∧
    (f.format = .Xcoff → parse_object f = .err .UnrecognizedFileFormat) := by
  constructor
  · intro hf
    have hpo : parse_object f = .panic := by simp [parse_object, hdbg, hf]
    refine ⟨hpo, fun l hl => ?_, fun e he => ?_⟩
    · rw [hpo] at hl; cases hl
    · rw [hpo] at he; cases he
  · intro hf
    simp [parse_object, hdbg, hf]

/-- Witness for C9 at concrete WASM and unknown-kind containers. -/
theorem wasm_panics_unknown_unrecognized_witness :
    parse_object objWasm = .panic ∧
    parse_object objXcoff = .err .UnrecognizedFileFormat :=
  ⟨((wasm_panics_unknown_unrecognized objWasm rfl).1 rfl).1,
   (wasm_panics_unknown_unrecognized objXcoff rfl).2 rfl⟩

/-- C3: `parse` fails with MissingDebugSymbols exactly when the
object-container path is taken and the container either reports no debug
symbols or has kind COFF or PE (regardless of the flag); an ELF or Mach-O
container reporting debug symbols instead proceeds to the DWARF walker. -/
theorem missing_debug_symbols_characterization (s : Stream) :
    (parse s = .err .MissingDebugSymbols ↔
      ∃ obj, takesObjectPath s obj ∧
        (obj.hasDebugSymbols = false ∨ obj.format = .Coff ∨ obj.format = .Pe)) ∧
    (∀ obj, takesObjectPath s obj → obj.hasDebugSymbols = true →
      (obj.format = .Elf ∨ obj.format = .MachO) →
      parse s = parse_elf_file obj
        (if obj.littleEndian then .Little else .Big)) := by
  constructor
  · cases hp : s.pdbOpen with
    | opened p =>
      rw [parse_opened_eq s p hp]
      refine iff_of_false (fun hcontra => ?_) ?_
      · cases hpp : parse_pdb p with
        | ok l => rw [hpp] at hcontra; simp [toPOutcome] at hcontra
        | error er =>
          rw [hpp] at hcontra
          simp only [toPOutcome, POutcome.err.injEq] at hcontra
          have := parse_pdb_error p er hpp
          simp_all
      · rintro ⟨obj, ⟨ho, _, _, _⟩, _⟩
        rw [hp] at ho
        simp at ho
    | errOther =>
      rw [parse_other_eq s hp]
      refine iff_of_false (by simp) ?_
      rintro ⟨obj, ⟨ho, _, _, _⟩, _⟩
      rw [hp] at ho
      simp at ho
    | errUnrecognized =>
      rw [parse_unrec_eq s hp]
      unfold objectFallback
      cases hrw : s.rewindOk with
      | false =>
        simp only [hrw, Bool.false_eq_true, if_false]
        refine iff_of_false (by simp) ?_
        rintro ⟨obj, ⟨_, hr, _, _⟩, _⟩
        rw [hrw] at hr
        cases hr
      | true =>
        simp only [hrw, if_true]
        cases hrd : s.readOk with
        | false =>
          simp only [hrd, Bool.false_eq_true, if_false]
          refine iff_of_false (by simp) ?_
          rintro ⟨obj, ⟨_, _, hr, _⟩, _⟩
          rw [hrd] at hr
          cases hr
        | true =>
          simp only [hrd, if_true]
          cases hob : s.objectParse with
          | error u =>
            simp only [hob]
            refine iff_of_false (by simp) ?_
            rintro ⟨obj, ⟨_, _, _, hb⟩, _⟩
            rw [hob] at hb
            cases hb
          | ok obj =>
            simp only [hob]
            constructor
            · intro hmds
              exact ⟨obj, ⟨hp, hrw, hrd, hob⟩,
                (parse_object_missing_iff obj).mp hmds⟩
            · rintro ⟨obj2, ⟨_, _, _, hob2⟩, hcond⟩
              rw [hob] at hob2
              injection hob2 with hobj
              subst hobj
              exact (parse_object_missing_iff obj).mpr hcond
  · rintro obj ⟨ho, hr, hd, hob⟩ hdbg hfmt
    rw [parse_unrec_eq s ho]
    unfold objectFallback
    simp only [hr, hd, if_true, hob]
    rcases hfmt with hf | hf <;> simp [parse_object, hdbg, hf]

/-- Witness for C3: a stripped ELF stream yields MissingDebugSymbols, and
an ELF stream with debug symbols is routed to the DWARF walker. -/
theorem missing_debug_symbols_characterization_witness :
    parse streamNoDbg = .err .MissingDebugSymbols ∧
    parse streamUnrec = parse_elf_file objElfEmpty
      (if objElfEmpty.littleEndian then .Little else .Big) :=
  ⟨(missing_debug_symbols_characterization streamNoDbg).1.mpr
      ⟨objNoDbg, ⟨rfl, rfl, rfl, rfl⟩, Or.inl rfl⟩,
   (missing_debug_symbols_characterization streamUnrec).2 objElfEmpty
      ⟨rfl, rfl, rfl, rfl⟩ rfl (Or.inl rfl)⟩

/-- Evaluation of the per-entry body once the directory attribute is
present and both attribute strings resolve. -/
theorem processEntry_eq_of_resolved (d : DwarfInput) (u : DwarfUnit)
    (h : LineProgramHeader) (e : DwarfFileEntry) (r : Nat)
    (dirStr fn : String) (hda : e.dirAttr = some r)
    (hds : d.attrStrings r = some dirStr)
    (hfn : d.attrStrings e.nameAttr = some fn) :
    processEntry d u h e =
      if strStartsWith fn "<" then .ok none
      else .ok (some
        { path := pathPush
            (if pathIsRelative dirStr then
              match u.compDir with
              | some cd => pathPush cd dirStr
              | none => dirStr
            else dirStr) fn
          size := if h.hasSize then (if e.size = 0 then none else some e.size)
            else none
          timestamp := if h.hasTimestamp then
            (if e.timestamp = 0 then none else some e.timestamp) else none
          checksum := if h.hasMd5 then some (FileCheckSum.Md5 e.md5)
            else none }) := by
  unfold processEntry
  simp only [hda, hds, hfn]

/-- An entry with directory reference 0, name reference 1, raw timestamp 5
and raw size 0. -/
def entryTS : DwarfFileEntry :=
  { dirAttr := some 0, nameAttr := 1, timestamp := 5, size := 0, md5 := [] }

/-- An entry whose name reference resolves to a pseudo-file name. -/
def entryPseudo : DwarfFileEntry :=
  { dirAttr := some 0, nameAttr := 2, timestamp := 0, size := 0, md5 := [] }

/-- An entry with no directory attribute. -/
def entryNoDir : DwarfFileEntry :=
  { dirAttr := none, nameAttr := 1, timestamp := 0, size := 0, md5 := [] }

/-- A header declaring timestamps and sizes present, no MD5, listing
`entryTS`. -/
def headerTS : LineProgramHeader :=
  { hasTimestamp := true, hasSize := true, hasMd5 := false,
    fileNames := [entryTS] }

/-- A unit with compilation directory `/src` and line program `headerTS`. -/
def unitTS : DwarfUnit :=
  { compDir := some "/src", lineProgram := some headerTS }

/-- Attribute strings: 0 resolves to the relative directory `dir`, 1 to the
base name `f.c`, everything else to the pseudo-file `<built-in>`. -/
def dwarfTS : DwarfInput :=
  { attrStrings := fun n =>
      if n = 0 then some "dir" else if n = 1 then some "f.c"
      else some "<built-in>",
    units := [unitTS] }

/-- The record `processEntry` produces for `entryTS` under `dwarfTS`. -/
def infoTS : FileInfo :=
  { path := "/src/dir/f.c", size := none, timestamp := some 5,
    checksum := none }

/-- C4: when the unit's line-program header declares per-file timestamps
present, the emitted record's timestamp is absent for a raw value of 0 and
`some x` for any other raw value `x`; when the header does not declare
timestamps the field stays absent. The identical rule governs `size`. -/
theorem dwarf_zero_sentinel (d : DwarfInput) (u : DwarfUnit)
    (h : LineProgramHeader) (e : DwarfFileEntry) (info : FileInfo)
    (hok : processEntry d u h e = .ok (some info)) :
    (h.hasTimestamp = true →
      info.timestamp = if e.timestamp = 0 then none else some e.timestamp) ∧
    (h.hasTimestamp = false → info.timestamp = none) ∧
    (h.hasSize = true →
      info.size = if e.size = 0 then none else some e.size) ∧
    (h.hasSize = false → info.size = none) := by
  cases hda : e.dirAttr with
  | none => unfold processEntry at hok; simp [hda] at hok
  | some r =>
    cases hds : d.attrStrings r with
    | none => unfold processEntry at hok; simp [hda, hds] at hok
    | some dirStr =>
      cases hfn : d.attrStrings e.nameAttr with
      | none => unfold processEntry at hok; simp [hda, hds, hfn] at hok
      | some fn =>
        rw [processEntry_eq_of_resolved d u h e r dirStr fn hda hds hfn]
          at hok
        by_cases hlt : strStartsWith fn "<" = true
        · simp [hlt] at hok
        · simp only [hlt, Bool.false_eq_true, if_false, POutcome.ok.injEq,
            Option.some.injEq] at hok
          subst hok
          refine ⟨fun hflag => ?_, fun hflag => ?_,
            fun hflag => ?_, fun hflag => ?_⟩ <;> simp [hflag]

/-- Witness for C4: `entryTS` has raw timestamp 5 and raw size 0 under a
header declaring both, so the record keeps `some 5` and drops the size. -/
theorem dwarf_zero_sentinel_witness :
    infoTS.timestamp =
      (if entryTS.timestamp = 0 then none else some entryTS.timestamp) ∧
    infoTS.size = (if entryTS.size = 0 then none else some entryTS.size) :=
  ⟨(dwarf_zero_sentinel dwarfTS unitTS headerTS entryTS infoTS rfl).1 rfl,
   (dwarf_zero_sentinel dwarfTS unitTS headerTS entryTS infoTS rfl).2.2.1 rfl⟩

/-- C5: a file-name-table entry whose resolved base name begins with `<`
is never emitted; an entry whose base name does not begin with `<` is
emitted whenever its processing succeeds. -/
theorem pseudo_file_excluded (d : DwarfInput) (u : DwarfUnit)
    (h : LineProgramHeader) (e : DwarfFileEntry) (fn : String)
    (hfn : d.attrStrings e.nameAttr = some fn) :
    (strStartsWith fn "<" = true →
      ∀ info, processEntry d u h e ≠ .ok (some info)) ∧
    (strStartsWith fn "<" = false →
      ∀ r, processEntry d u h e = .ok r → ∃ info, r = some info) := by
  constructor
  · intro hlt info hok
    cases hda : e.dirAttr with
    | none => unfold processEntry at hok; simp [hda] at hok
    | some rr =>
      cases hds : d.attrStrings rr with
      | none => unfold processEntry at hok; simp [hda, hds] at hok
      | some dirStr =>
        rw [processEntry_eq_of_resolved d u h e rr dirStr fn hda hds hfn]
          at hok
        simp [hlt] at hok
  · intro hlt r hok
    cases hda : e.dirAttr with
    | none => unfold processEntry at hok; simp [hda] at hok
    | some rr =>
      cases hds : d.attrStrings rr with
      | none => unfold processEntry at hok; simp [hda, hds] at hok
      | some dirStr =>
        rw [processEntry_eq_of_resolved d u h e rr dirStr fn hda hds hfn]
          at hok
        simp [hlt] at hok
        exact ⟨_, hok.symm⟩

/-- Witness for C5: the `<built-in>` entry is dropped, the `f.c` entry is
emitted. -/
theorem pseudo_file_excluded_witness :
    (∀ info, processEntry dwarfTS unitTS headerTS entryPseudo ≠
      .ok (some info)) ∧
    (∀ r, processEntry dwarfTS unitTS headerTS entryTS = .ok r →
      ∃ info, r = some info) :=
  ⟨(pseudo_file_excluded dwarfTS unitTS headerTS entryPseudo "<built-in>"
      rfl).1 rfl,
   (pseudo_file_excluded dwarfTS unitTS headerTS entryTS "f.c" rfl).2 rfl⟩

/-- C6: every record the PDB walker builds has `size` and `timestamp`
absent, `path` the entry's name reference resolved through the global
string table, and `checksum` determined by the entry's tag: MD5/SHA1/SHA256
map to the corresponding variant, the None tag maps to absent. -/
theorem pdb_record_shape (st : Nat → Option String) (e : PdbFileEntry)
    (s : String) (hs : st e.nameRef = some s) :
    pdbEntryToInfo st e =
      .ok { path := s, size := none, timestamp := none,
            checksum := convert_pdb_checksum_to_checksum e.checksum } ∧
    (∀ data, convert_pdb_checksum_to_checksum (.Md5 data) =
      some (.Md5 data)) ∧
    (∀ data, convert_pdb_checksum_to_checksum (.Sha1 data) =
      some (.Sha1 data)) ∧
    (∀ data, convert_pdb_checksum_to_checksum (.Sha256 data) =
      some (.Sha256 data)) ∧
    convert_pdb_checksum_to_checksum .None = none := by
  refine ⟨?_, fun _ => rfl, fun _ => rfl, fun _ => rfl, rfl⟩
  unfold pdbEntryToInfo
  rw [hs]

/-- Witness for C6 at a concrete entry resolved through `stConst`. -/
theorem pdb_record_shape_witness :
    pdbEntryToInfo stConst ⟨0, PdbChecksum.None⟩ =
      .ok { path := "a.c", size := none, timestamp := none,
            checksum := convert_pdb_checksum_to_checksum PdbChecksum.None } :=
  (pdb_record_shape stConst ⟨0, PdbChecksum.None⟩ "a.c" rfl).1

/-- C7: an emitted record's path is the entry's resolved directory string —
with the unit's compilation directory prepended when that string is a
relative path and the unit declares one — with the entry's resolved base
name appended (`PathBuf::push` semantics). -/
theorem dwarf_path_formation (d : DwarfInput) (u : DwarfUnit)
    (h : LineProgramHeader) (e : DwarfFileEntry) (r : Nat)
    (dirStr fn : String) (info : FileInfo)
    (hda : e.dirAttr = some r) (hds : d.attrStrings r = some dirStr)
    (hfn : d.attrStrings e.nameAttr = some fn)
    (hok : processEntry d u h e = .ok (some info)) :
    (pathIsRelative dirStr = true → ∀ cd, u.compDir = some cd →
      info.path = pathPush (pathPush cd dirStr) fn) ∧
    (pathIsRelative dirStr = true → u.compDir = none →
      info.path = pathPush dirStr fn) ∧
    (pathIsRelative dirStr = false → info.path = pathPush dirStr fn) := by
  rw [processEntry_eq_of_resolved d u h e r dirStr fn hda hds hfn] at hok
  by_cases hlt : strStartsWith fn "<" = true
  · simp [hlt] at hok
  · simp only [hlt, Bool.false_eq_true, if_false, POutcome.ok.injEq,
      Option.some.injEq] at hok
    subst hok
    refine ⟨fun hrel cd hcd => ?_, fun hrel hcd => ?_, fun hrel => ?_⟩
    · simp [hrel, hcd]
    · simp [hrel, hcd]
    · simp [hrel]

/-- Witness for C7: `dir` is relative and the unit declares `/src`, so the
emitted path is `/src` joined with `dir` joined with `f.c`. -/
theorem dwarf_path_formation_witness :
    infoTS.path = pathPush (pathPush "/src" "dir") "f.c" :=
  (dwarf_path_formation dwarfTS unitTS headerTS entryTS 0 "dir" "f.c"
    infoTS rfl rfl rfl rfl).1 rfl "/src" rfl

/-- A section whose bytes fail to load. -/
def badSection : Section := { uncompressedData := .error () }

/-- An ELF container whose `.debug_info` section is present but whose
bytes fail to load; no compilation units. -/
def objBadSection : ObjectFile :=
  { littleEndian := true, hasDebugSymbols := true, format := .Elf,
    sections := fun n => if n = ".debug_info" then some badSection else none,
    dwarf := dwarfEmpty }

/-- A DWARF view resolving reference 0 to a directory string and nothing
else. -/
def dwarfDirOnly : DwarfInput :=
  { attrStrings := fun n => if n = 0 then some "dir" else none,
    units := [] }

/-- A unit whose entries cannot resolve any attribute string. -/
def unitErr : DwarfUnit :=
  { compDir := none,
    lineProgram := some { hasTimestamp := false, hasSize := false,
                          hasMd5 := false, fileNames := [entryTS] } }

/-- An ELF container whose single unit fails attribute-string resolution. -/
def objDwarfErr : ObjectFile :=
  { littleEndian := true, hasDebugSymbols := true, format := .Elf,
    sections := fun _ => none,
    dwarf := { attrStrings := stEmpty, units := [unitErr] } }

/-- An ELF container whose single unit emits exactly `infoTS`. -/
def objElfTS : ObjectFile :=
  { littleEndian := true, hasDebugSymbols := true, format := .Elf,
    sections := fun _ => none, dwarf := dwarfTS }

/-- C8 counterexample: a present `.debug_info` section whose bytes fail to
load is converted into the default empty buffer (`unwrap_or_default`,
lib.rs:271) and the decode succeeds, instead of aborting with a DWARF-layer
error as the claim requires. -/
theorem section_byte_failure_swallowed :
    objBadSection.sections ".debug_info" = some badSection ∧
    badSection.uncompressedData = .error () ∧
    load_section objBadSection ".debug_info" = .ok [] ∧
    parse_elf_file objBadSection .Little = .ok [] :=
  ⟨rfl, rfl, rfl, rfl⟩

/-- C8 (amended): inside the DWARF walker, any attribute or string decode
failure aborts the whole decode as a DWARF-layer error with no partial
result — a walker success requires every enumerated entry to have decoded
successfully — but a failure to obtain a present debug section's bytes is
*not* propagated: exactly like an absent section, it is converted into an
empty buffer. -/
theorem dwarf_failure_propagation :
    (∀ (f : ObjectFile) (name : String) (sec : Section),
      f.sections name = some sec → sec.uncompressedData = .error () →
      load_section f name = .ok []) ∧
    (∀ (f : ObjectFile) (name : String),
      f.sections name = none → load_section f name = .ok []) ∧
    (∀ (d : DwarfInput) (u : DwarfUnit) (h : LineProgramHeader)
        (e : DwarfFileEntry) (r : Nat),
      e.dirAttr = some r → d.attrStrings r = none →
      processEntry d u h e = .err .Dwarf) ∧
    (∀ (d : DwarfInput) (u : DwarfUnit) (h : LineProgramHeader)
        (e : DwarfFileEntry) (r : Nat) (dirStr : String),
      e.dirAttr = some r → d.attrStrings r = some dirStr →
      d.attrStrings e.nameAttr = none →
      processEntry d u h e = .err .Dwarf) ∧
    (∀ (f : ObjectFile) (en : Endianness) (er : Error),
      parse_elf_file f en = .err er → er = .Dwarf) ∧
    (∀ (f : ObjectFile) (en : Endianness) (l : List FileInfo),
      parse_elf_file f en = .ok l →
      ∀ u ∈ f.dwarf.units, ∀ h, u.lineProgram = some h →
        ∀ e ∈ h.fileNames, ∃ r, processEntry f.dwarf u h e = .ok r) := by
  refine ⟨?_, ?_, ?_, ?_, parse_elf_file_error, ?_⟩
  · intro f name sec hsec hdata
    unfold load_section
    simp only [hsec, hdata]
  · intro f name hsec
    unfold load_section
    rw [hsec]
  · intro d u h e r hda hds
    unfold processEntry
    simp only [hda, hds]
  · intro d u h e r dirStr hda hds hfn
    unfold processEntry
    simp only [hda, hds, hfn]
  · intro f en l hok
    obtain ⟨files, hc, _⟩ := parse_elf_file_ok f en l hok
    exact collectUnits_ok_all f.dwarf f.dwarf.units files hc

/-- Witness for C8 (amended) at concrete inputs for every conjunct. -/
theorem dwarf_failure_propagation_witness :
    load_section objBadSection ".debug_info" = .ok [] ∧
    load_section objElfEmpty ".debug_info" = .ok [] ∧
    processEntry dwarfEmpty unitTS headerTS entryTS = .err .Dwarf ∧
    processEntry dwarfDirOnly unitTS headerTS entryTS = .err .Dwarf ∧
    Error.Dwarf = Error.Dwarf ∧
    (∃ r, processEntry dwarfTS unitTS headerTS entryTS = .ok r) :=
  ⟨dwarf_failure_propagation.1 objBadSection ".debug_info" badSection
      rfl rfl,
   dwarf_failure_propagation.2.1 objElfEmpty ".debug_info" rfl,
   dwarf_failure_propagation.2.2.1 dwarfEmpty unitTS headerTS entryTS 0
      rfl rfl,
   dwarf_failure_propagation.2.2.2.1 dwarfDirOnly unitTS headerTS entryTS
      0 "dir" rfl rfl rfl,
   dwarf_failure_propagation.2.2.2.2.1 objDwarfErr .Little .Dwarf rfl,
   dwarf_failure_propagation.2.2.2.2.2 objElfTS .Little [infoTS] rfl
      unitTS (by simp [objElfTS, dwarfTS]) headerTS rfl entryTS
      (by simp [headerTS])⟩

/-- C10: the DWARF walker unwraps each entry's directory lookup
(lib.rs:299): an entry whose directory attribute yields no value makes the
walk panic rather than return a DWARF-layer error, and the walk cannot
panic when every enumerated entry's directory attribute is present. -/
theorem dir_lookup_unwrap_panic :
    (∀ (d : DwarfInput) (u : DwarfUnit) (h : LineProgramHeader)
        (e : DwarfFileEntry), e.dirAttr = none →
      processEntry d u h e = .panic) ∧
    (∀ (d : DwarfInput) (us : List DwarfUnit),
      (∀ u ∈ us, ∀ h, u.lineProgram = some h →
        ∀ e ∈ h.fileNames, (e.dirAttr).isSome) →
      collectUnits d us ≠ .panic) := by
  constructor
  · intro d u h e hda
    unfold processEntry
    rw [hda]
  · exact fun d us hall => collectUnits_not_panic d us hall

/-- Witness for C10: the directory-less entry panics, and the walk over
the fully resolved unit does not panic. -/
theorem dir_lookup_unwrap_panic_witness :
    processEntry dwarfTS unitTS headerTS entryNoDir = .panic ∧
    collectUnits dwarfTS [unitTS] ≠ .panic :=
  ⟨dir_lookup_unwrap_panic.1 dwarfTS unitTS headerTS entryNoDir rfl,
   dir_lookup_unwrap_panic.2 dwarfTS [unitTS] (by
     intro u hu h hlp e he
     simp only [List.mem_singleton] at hu
     subst hu
     simp only [unitTS, Option.some.injEq] at hlp
     subst hlp
     simp only [headerTS, List.mem_singleton] at he
     subst he
     rfl)⟩
